import Mathlib

/-!
Verification of the replay step-execution engine (`src/Runner.ts`).

The engine has two parts:

* `Runner.run`: a resumable dispatch loop over the steps of a flow, driving a
  backend (`RunnerExtension`) with a mandatory `runStep` and four optional
  lifecycle hooks, advancing a persisted cursor (`#nextStep`).
* `importSteps`: a single-pass preprocessing step that expands import-marker
  steps (`{type:'import', from, target}`) by reading and parsing an external
  file and splicing its `steps` array in place.

The embedding makes the observable behaviour explicit: each invocation of a
backend operation is recorded as an `Event` in a trace, each invocation may
fail (the extension carries, for every hook and for `runStep` at every step
index, whether that invocation succeeds), and `run` returns the trace, the
final cursor, and either the boolean the source returns or the failing
invocation (the propagated exception).
-/

namespace Replay

/-- The `from` field of an import-marker step: `'file' | 'url'`. -/
inductive Source
  | file
  | url
  deriving DecidableEq, Repr

/-- A step of a flow.  The engine inspects only the `type` discriminant:
an `importStep` is the marker `{type:'import', from, target}`; every other
step kind is an opaque payload (`ordinary tag`) forwarded to the backend. -/
inductive Step
  | ordinary (tag : String)
  | importStep (src : Source) (target : String)
  deriving DecidableEq, Repr

/-- Holds exactly on import-marker steps (the source's
`step.type != 'import'` test, negated). -/
def stepIsImport : Step → Bool
  | Step.importStep _ _ => true
  | Step.ordinary _ => false

/-- A user flow: a title and an ordered list of steps.  (The same shape serves
as the source's `ExtandableUserFlow`, whose steps may still contain import
markers, and `UserFlow`; further metadata fields are irrelevant to the
engine.) -/
structure UserFlow where
  title : String
  steps : List Step
  deriving DecidableEq, Repr

/-- One observable backend invocation, recorded with the step index the loop
used (`this.#nextStep` at the time of the call). -/
inductive Event
  | beforeAllSteps
  | beforeEachStep (i : Nat)
  | runStep (i : Nat)
  | afterEachStep (i : Nat)
  | afterAllSteps
  deriving DecidableEq, Repr

/-- The backend (`RunnerExtension`).  `has…` fields say which optional hooks
the backend implements (the source's `?.` calls skip absent hooks); the
`…Ok` fields say, for each possible invocation, whether it completes or
throws.  `runStep` is mandatory, so it has no `has` flag. -/
structure RunnerExtension where
  hasBeforeAllSteps : Bool
  hasBeforeEachStep : Bool
  hasAfterEachStep : Bool
  hasAfterAllSteps : Bool
  beforeAllStepsOk : Bool
  beforeEachStepOk : Nat → Bool
  runStepOk : Nat → Bool
  afterEachStepOk : Nat → Bool
  afterAllStepsOk : Bool

/-- Result of one `run` invocation: `ok b` models `return b`, `error e`
models the exception propagating out of the invocation that produced
event `e`. -/
inductive Outcome
  | ok (b : Bool)
  | error (e : Event)
  deriving DecidableEq, Repr

/-- What one call to `Runner.run` produces: the trace of backend invocations
(in invocation order — each is awaited to completion before the next begins),
the value of the cursor `#nextStep` when the call ends, and the outcome. -/
structure RunResult where
  events : List Event
  nextStep : Nat
  outcome : Outcome
  deriving DecidableEq, Repr

/-- One optional-hook invocation: if the backend implements the hook it is
invoked (the event is recorded) and fails iff `ok` is `false`; otherwise
nothing happens. -/
def invokeOpt (has ok : Bool) (e : Event) : List Event × Option Event :=
  if has then ([e], if ok then none else some e) else ([], none)

/-- One mandatory invocation (`runStep`). -/
def invokeReq (ok : Bool) (e : Event) : List Event × Option Event :=
  ([e], if ok then none else some e)

/-- Sequence two awaited invocations: the second happens only if the first
did not throw. -/
def andThen (a b : List Event × Option Event) : List Event × Option Event :=
  match a with
  | (evs, some e) => (evs, some e)
  | (evs, none) => (evs ++ b.1, b.2)

/-- One iteration of the dispatch loop at cursor `i`:
`await beforeEachStep?.(steps[i], flow); await runStep(steps[i], flow);
await afterEachStep?.(steps[i], flow)`. -/
def runOneStep (ext : RunnerExtension) (i : Nat) : List Event × Option Event :=
  andThen (invokeOpt ext.hasBeforeEachStep (ext.beforeEachStepOk i) (Event.beforeEachStep i))
    (andThen (invokeReq (ext.runStepOk i) (Event.runStep i))
      (invokeOpt ext.hasAfterEachStep (ext.afterEachStepOk i) (Event.afterEachStep i)))

/-- The code after the loop:
`if (this.#nextStep >= this.#flow.steps.length) { await afterAllSteps?.(flow);
return true } return false`. -/
def runFinish (ext : RunnerExtension) (numSteps cursor : Nat) : RunResult :=
  if numSteps ≤ cursor then
    if ext.hasAfterAllSteps then
      ⟨[Event.afterAllSteps], cursor,
        if ext.afterAllStepsOk then Outcome.ok true else Outcome.error Event.afterAllSteps⟩
    else ⟨[], cursor, Outcome.ok true⟩
  else ⟨[], cursor, Outcome.ok false⟩

/-- The `while (nextStep < stepIdx && nextStep < steps.length)` loop followed
by the completion check.  `remaining` encodes `stepIdx - cursor` (natural
subtraction), so `0 < remaining ↔ cursor < stepIdx` holds at every
iteration; the source's `this.#nextStep++` becomes `cursor + 1` together
with `remaining - 1`.  On an exception the loop stops, the cursor is not
incremented past the failing step, and the completion check is skipped. -/
def runLoop (ext : RunnerExtension) (numSteps : Nat) :
    Nat → Nat → RunResult
  | 0, cursor => runFinish ext numSteps cursor
  | remaining + 1, cursor =>
    if cursor < numSteps then
      match runOneStep ext cursor with
      | (evs, some e) => ⟨evs, cursor, Outcome.error e⟩
      | (evs, none) =>
        let r := runLoop ext numSteps remaining (cursor + 1)
        ⟨evs ++ r.events, r.nextStep, r.outcome⟩
    else runFinish ext numSteps cursor

/-- Model of `Runner.run(stepIdx?)` from a given cursor value (`this.#nextStep`).
`stepIdx? = none` models omitting the argument, in which case the source
sets `stepIdx = this.#flow.steps.length`.  If the cursor is `0`,
`beforeAllSteps` is awaited first (when implemented). -/
def Runner.run (ext : RunnerExtension) (flow : UserFlow) (nextStep : Nat)
    (stepIdx? : Option Nat) : RunResult :=
  let stepIdx := stepIdx?.getD flow.steps.length
  if nextStep = 0 ∧ ext.hasBeforeAllSteps then
    if ext.beforeAllStepsOk then
      let r := runLoop ext flow.steps.length (stepIdx - nextStep) nextStep
      ⟨Event.beforeAllSteps :: r.events, r.nextStep, r.outcome⟩
    else ⟨[Event.beforeAllSteps], nextStep, Outcome.error Event.beforeAllSteps⟩
  else runLoop ext flow.steps.length (stepIdx - nextStep) nextStep

/-- What reading and JSON-parsing an import target can yield:
`readFile` rejects, `JSON.parse` throws, the parsed value has no `steps`
field, or it has one holding a list of steps (which, being untyped JSON,
may itself contain import markers). -/
inductive FileContent
  | unreadable
  | unparsable
  | jsonWithoutSteps
  | jsonSteps (steps : List Step)
  deriving DecidableEq, Repr

/-- The cause wrapped by an import error (the `${error}` interpolated into
`Error reading file: ${target}\n${error}`). -/
inductive ImportCause
  | readFailed
  | parseFailed
  | noStepsFound
  deriving DecidableEq, Repr

/-- Errors thrown by import resolution: `importError target cause` is the
`Error reading file: ${target}\n${cause}` rethrow (it names the target and
wraps the original failure); `unsupportedSource src` is the
`Adding steps from "${src}" is not supported` throw. -/
inductive FlowError
  | importError (target : String) (cause : ImportCause)
  | unsupportedSource (src : Source)
  deriving DecidableEq, Repr

/-- The `for (const step of givenFlow.steps)` loop of `importSteps`: an
ordinary step is pushed unchanged; an import marker with `from:'file'` is
replaced by the steps parsed from its target (appended as-is, in order,
without re-scanning); any failure while reading/parsing, a missing `steps`
field, and any other `from` kind abort the whole resolution.  `fs` models
the file system: what reading a given target yields. -/
def importStepsAux (fs : String → FileContent) : List Step → Except FlowError (List Step)
  | [] => Except.ok []
  | step :: rest =>
    match step with
    | Step.ordinary tag =>
      match importStepsAux fs rest with
      | Except.ok tail => Except.ok (Step.ordinary tag :: tail)
      | Except.error e => Except.error e
    | Step.importStep src target =>
      match src with
      | Source.file =>
        match fs target with
        | FileContent.jsonSteps s =>
          match importStepsAux fs rest with
          | Except.ok tail => Except.ok (s ++ tail)
          | Except.error e => Except.error e
        | FileContent.jsonWithoutSteps =>
          Except.error (FlowError.importError target ImportCause.noStepsFound)
        | FileContent.unparsable =>
          Except.error (FlowError.importError target ImportCause.parseFailed)
        | FileContent.unreadable =>
          Except.error (FlowError.importError target ImportCause.readFailed)
      | Source.url => Except.error (FlowError.unsupportedSource Source.url)

/-- Model of `importSteps(givenFlow)`: resolve every import marker in the
flow's step list, keeping the surrounding metadata
(`{...givenFlow, steps}`). -/
def importSteps (fs : String → FileContent) (givenFlow : UserFlow) :
    Except FlowError UserFlow :=
  match importStepsAux fs givenFlow.steps with
  | Except.ok steps => Except.ok { givenFlow with steps := steps }
  | Except.error e => Except.error e

/-! ### Derived trace vocabulary and loop lemmas -/

/-- The trace one successful loop iteration at cursor `i` produces:
`beforeEachStep` (if implemented), the mandatory `runStep`, then
`afterEachStep` (if implemented). -/
def stepTrace (ext : RunnerExtension) (i : Nat) : List Event :=
  (if ext.hasBeforeEachStep then [Event.beforeEachStep i] else []) ++
    Event.runStep i ::
      (if ext.hasAfterEachStep then [Event.afterEachStep i] else [])

/-- Every implemented invocation of the loop iteration at cursor `i`
completes without throwing. -/
def iterOk (ext : RunnerExtension) (i : Nat) : Bool :=
  (!ext.hasBeforeEachStep || ext.beforeEachStepOk i) &&
    (ext.runStepOk i &&
      (!ext.hasAfterEachStep || ext.afterEachStepOk i))

/-- Trace of `m` consecutive successful loop iterations starting at cursor
`c`. -/
def stepsTrace (ext : RunnerExtension) : Nat → Nat → List Event
  | _, 0 => []
  | c, m + 1 => stepTrace ext c ++ stepsTrace ext (c + 1) m

/-- The cursor value at which a `run(stepIdx?)` call from cursor `c` ends,
when no invocation fails. -/
def runTarget (flow : UserFlow) (c : Nat) (stepIdx? : Option Nat) : Nat :=
  min (c + (stepIdx?.getD flow.steps.length - c)) flow.steps.length

/-! ### Concrete fixtures for witnesses and counterexamples -/

/-- A backend implementing all four lifecycle hooks, every invocation of
which succeeds. -/
def extAllHooks : RunnerExtension :=
  ⟨true, true, true, true, true, fun _ => true, fun _ => true, fun _ => true, true⟩

/-- Like `extAllHooks`, but `runStep` throws on the step at index `1`. -/
def extFailRun1 : RunnerExtension :=
  ⟨true, true, true, true, true, fun _ => true, fun j => j != 1, fun _ => true, true⟩

def flowOne : UserFlow := ⟨"one-step", [Step.ordinary "click"]⟩

def flowTwo : UserFlow := ⟨"two-step", [Step.ordinary "navigate", Step.ordinary "click"]⟩

/-- File-system fixture: `lib.json` parses to a flat `steps` array of two
ordinary steps. -/
def fsFlat : String → FileContent := fun t =>
  if t = "lib.json" then FileContent.jsonSteps [Step.ordinary "x", Step.ordinary "y"]
  else FileContent.unreadable

def flowWithImport : UserFlow :=
  ⟨"main", [Step.ordinary "a", Step.importStep Source.file "lib.json", Step.ordinary "b"]⟩

/-- File-system fixture: `inner.json` parses to a `steps` array that itself
contains an import marker. -/
def fsNested : String → FileContent := fun t =>
  if t = "inner.json" then FileContent.jsonSteps [Step.importStep Source.url "nested"]
  else FileContent.unreadable

def flowNested : UserFlow := ⟨"outer", [Step.importStep Source.file "inner.json"]⟩

/-- File-system fixture for the import error cases. -/
def fsErr : String → FileContent := fun t =>
  if t = "bad-parse.json" then FileContent.unparsable
  else if t = "no-steps.json" then FileContent.jsonWithoutSteps
  else FileContent.unreadable

/-! ### Loop lemmas -/

theorem runOneStep_of_iterOk (ext : RunnerExtension) (i : Nat)
    (h : iterOk ext i = true) :
    runOneStep ext i = (stepTrace ext i, none) := by
  simp only [iterOk, Bool.and_eq_true, Bool.or_eq_true, Bool.not_eq_true'] at h
  obtain ⟨h1, h2, h3⟩ := h
  unfold runOneStep invokeOpt invokeReq andThen stepTrace
  rcases hb : ext.hasBeforeEachStep with _ | _ <;>
    rcases ha : ext.hasAfterEachStep with _ | _ <;>
      simp_all

theorem runFinish_nextStep (ext : RunnerExtension) (numSteps cursor : Nat) :
    (runFinish ext numSteps cursor).nextStep = cursor := by
  unfold runFinish
  split <;> [skip; rfl]
  split <;> rfl

theorem runFinish_expand (ext : RunnerExtension) (numSteps cursor : Nat) :
    runFinish ext numSteps cursor =
      ⟨(runFinish ext numSteps cursor).events, cursor,
        (runFinish ext numSteps cursor).outcome⟩ := by
  simp only [runFinish]
  split <;> [skip; rfl]
  split <;> rfl

/-- Success characterization of the dispatch loop: if every iteration the
loop will reach succeeds, it runs the cursor up to
`min (cursor + remaining) numSteps`, emitting the step traces in order,
and ends with the completion check there. -/
theorem runLoop_ok (ext : RunnerExtension) (numSteps : Nat) :
    ∀ remaining cursor, cursor ≤ numSteps →
      (∀ j, cursor ≤ j → j < numSteps → j < cursor + remaining → iterOk ext j = true) →
      runLoop ext numSteps remaining cursor =
        ⟨stepsTrace ext cursor (min (cursor + remaining) numSteps - cursor) ++
            (runFinish ext numSteps (min (cursor + remaining) numSteps)).events,
          min (cursor + remaining) numSteps,
          (runFinish ext numSteps (min (cursor + remaining) numSteps)).outcome⟩
  | 0, cursor, hc, _ => by
    have htgt : min cursor numSteps = cursor := Nat.min_eq_left hc
    simp only [runLoop, Nat.add_zero, htgt, Nat.sub_self, stepsTrace, List.nil_append]
    exact runFinish_expand ext numSteps cursor
  | remaining + 1, cursor, hc, hok => by
    by_cases h : cursor < numSteps
    · have hiter := runOneStep_of_iterOk ext cursor
        (hok cursor (Nat.le_refl _) h (by omega))
      have ih := runLoop_ok ext numSteps remaining (cursor + 1) h
        (fun j hj1 hj2 hj3 => hok j (by omega) hj2 (by omega))
      have htgt : min (cursor + 1 + remaining) numSteps =
          min (cursor + (remaining + 1)) numSteps := by omega
      have htgtpos : cursor < min (cursor + (remaining + 1)) numSteps := by omega
      have hsplit : min (cursor + (remaining + 1)) numSteps - cursor =
          (min (cursor + (remaining + 1)) numSteps - (cursor + 1)) + 1 := by omega
      simp only [runLoop, if_pos h, hiter]
      rw [ih, htgt, hsplit]
      simp [stepsTrace]
    · have htgt : min (cursor + (remaining + 1)) numSteps = cursor := by omega
      simp only [runLoop, if_neg h, htgt, Nat.sub_self, stepsTrace, List.nil_append]
      exact runFinish_expand ext numSteps cursor

/-- Failure characterization of the dispatch loop: if every iteration before
index `i` succeeds and the iteration at `i` (which the loop reaches) throws
after emitting `evs`, the loop emits the successful prefix followed by
`evs`, leaves the cursor at `i`, and propagates the error — the completion
check is skipped. -/
theorem runLoop_fail (ext : RunnerExtension) (numSteps i : Nat)
    (evs : List Event) (err : Event)
    (hfail : runOneStep ext i = (evs, some err)) :
    ∀ remaining cursor, cursor ≤ i → i < numSteps → i < cursor + remaining →
      (∀ j, cursor ≤ j → j < i → iterOk ext j = true) →
      runLoop ext numSteps remaining cursor =
        ⟨stepsTrace ext cursor (i - cursor) ++ evs, i, Outcome.error err⟩
  | 0, cursor, hc, _, hlt, _ => by omega
  | remaining + 1, cursor, hc, hin, hlt, hok => by
    have h : cursor < numSteps := by omega
    by_cases hci : cursor = i
    · subst hci
      simp [runLoop, h, hfail, stepsTrace]
    · have hiter := runOneStep_of_iterOk ext cursor
        (hok cursor (Nat.le_refl _) (by omega))
      have ih := runLoop_fail ext numSteps i evs err hfail remaining (cursor + 1)
        (by omega) hin (by omega) (fun j hj1 hj2 => hok j (by omega) hj2)
      have hsplit : i - cursor = (i - (cursor + 1)) + 1 := by omega
      simp only [runLoop, if_pos h, hiter]
      rw [ih, hsplit]
      simp [stepsTrace]

theorem runFinish_complete (ext : RunnerExtension) (numSteps cursor : Nat)
    (h : numSteps ≤ cursor) (haa : ext.afterAllStepsOk = true) :
    runFinish ext numSteps cursor =
      ⟨if ext.hasAfterAllSteps then [Event.afterAllSteps] else [], cursor,
        Outcome.ok true⟩ := by
  unfold runFinish
  rw [if_pos h]
  cases ext.hasAfterAllSteps <;> simp [haa]

theorem runFinish_incomplete (ext : RunnerExtension) (numSteps cursor : Nat)
    (h : cursor < numSteps) :
    runFinish ext numSteps cursor = ⟨[], cursor, Outcome.ok false⟩ := by
  unfold runFinish
  rw [if_neg (by omega)]

/-- With the cursor at or past the end of the flow the loop body never runs:
the call goes straight to the completion check. -/
theorem runLoop_at_end (ext : RunnerExtension) (numSteps : Nat)
    (remaining cursor : Nat) (h : numSteps ≤ cursor) :
    runLoop ext numSteps remaining cursor = runFinish ext numSteps cursor := by
  cases remaining with
  | zero => rfl
  | succ r => simp [runLoop, Nat.not_lt.2 h]

/-- Full characterization of one `run` call when no backend invocation
fails: `beforeAllSteps` first iff the cursor is `0` and the hook is
implemented, then the step traces from the entry cursor up to
`runTarget`, then the completion check there. -/
theorem run_noFail (ext : RunnerExtension) (flow : UserFlow) (c : Nat)
    (stepIdx? : Option Nat) (hc : c ≤ flow.steps.length)
    (hba : ext.beforeAllStepsOk = true)
    (hok : ∀ i, iterOk ext i = true) :
    Runner.run ext flow c stepIdx? =
      ⟨(if c = 0 ∧ ext.hasBeforeAllSteps = true then [Event.beforeAllSteps] else []) ++
          (stepsTrace ext c (runTarget flow c stepIdx? - c) ++
            (runFinish ext flow.steps.length (runTarget flow c stepIdx?)).events),
        runTarget flow c stepIdx?,
        (runFinish ext flow.steps.length (runTarget flow c stepIdx?)).outcome⟩ := by
  have hloop := runLoop_ok ext flow.steps.length (stepIdx?.getD flow.steps.length - c) c hc
    (fun j _ _ _ => hok j)
  unfold runTarget
  by_cases hpre : c = 0 ∧ ext.hasBeforeAllSteps = true
  · simp only [Runner.run, if_pos hpre, if_pos hba, hloop, if_pos hpre]
    simp
  · simp only [Runner.run, if_neg hpre, hloop, if_neg hpre]
    simp

/-! ### Membership and counting in traces -/

theorem mem_stepTrace (ext : RunnerExtension) (k : Nat) :
    ∀ e ∈ stepTrace ext k,
      e = Event.beforeEachStep k ∨ e = Event.runStep k ∨ e = Event.afterEachStep k := by
  unfold stepTrace
  cases ext.hasBeforeEachStep <;> cases ext.hasAfterEachStep <;> simp

theorem mem_stepsTrace (ext : RunnerExtension) :
    ∀ m c, ∀ e ∈ stepsTrace ext c m, ∃ k, c ≤ k ∧ k < c + m ∧
      (e = Event.beforeEachStep k ∨ e = Event.runStep k ∨ e = Event.afterEachStep k)
  | 0, c => by simp [stepsTrace]
  | m + 1, c => by
    intro e he
    rcases List.mem_append.1 he with h | h
    · exact ⟨c, Nat.le_refl _, by omega, mem_stepTrace ext c e h⟩
    · obtain ⟨k, hk1, hk2, hk3⟩ := mem_stepsTrace ext m (c + 1) e h
      exact ⟨k, by omega, by omega, hk3⟩

theorem beforeAll_not_mem_stepsTrace (ext : RunnerExtension) (m c : Nat) :
    Event.beforeAllSteps ∉ stepsTrace ext c m := by
  intro h
  obtain ⟨k, -, -, h3⟩ := mem_stepsTrace ext m c _ h
  simp at h3

theorem afterAll_not_mem_stepsTrace (ext : RunnerExtension) (m c : Nat) :
    Event.afterAllSteps ∉ stepsTrace ext c m := by
  intro h
  obtain ⟨k, -, -, h3⟩ := mem_stepsTrace ext m c _ h
  simp at h3

theorem beforeAll_not_mem_runFinish (ext : RunnerExtension) (numSteps cursor : Nat) :
    Event.beforeAllSteps ∉ (runFinish ext numSteps cursor).events := by
  unfold runFinish
  split <;> [skip; simp]
  split <;> simp

/-- The loop body and the completion check never invoke `beforeAllSteps`,
whether or not invocations fail along the way. -/
theorem beforeAll_not_mem_runOneStep (ext : RunnerExtension) (i : Nat) :
    Event.beforeAllSteps ∉ (runOneStep ext i).1 := by
  unfold runOneStep invokeOpt invokeReq andThen
  cases ext.hasBeforeEachStep <;> cases ext.beforeEachStepOk i <;>
    cases ext.runStepOk i <;> cases ext.hasAfterEachStep <;>
      cases ext.afterEachStepOk i <;> simp

theorem beforeAll_not_mem_runLoop (ext : RunnerExtension) (numSteps : Nat) :
    ∀ remaining cursor, Event.beforeAllSteps ∉ (runLoop ext numSteps remaining cursor).events
  | 0, cursor => beforeAll_not_mem_runFinish ext numSteps cursor
  | remaining + 1, cursor => by
    by_cases h : cursor < numSteps
    · have hone := beforeAll_not_mem_runOneStep ext cursor
      simp only [runLoop, if_pos h]
      rcases hro : runOneStep ext cursor with ⟨evs, oe⟩
      rw [hro] at hone
      cases oe with
      | some e => simpa using hone
      | none =>
        simp only [List.mem_append]
        rintro (hl | hr)
        · exact hone hl
        · exact beforeAll_not_mem_runLoop ext numSteps remaining (cursor + 1) hr
    · rw [runLoop_at_end ext numSteps _ _ (by omega)]
      exact beforeAll_not_mem_runFinish ext numSteps cursor

theorem count_runStep_stepTrace (ext : RunnerExtension) (i j : Nat) :
    (stepTrace ext j).count (Event.runStep i) = if i = j then 1 else 0 := by
  unfold stepTrace
  cases ext.hasBeforeEachStep <;> cases ext.hasAfterEachStep <;>
    by_cases hij : i = j <;> simp_all [List.count_cons, List.count_append]

theorem count_runStep_stepsTrace (ext : RunnerExtension) (i : Nat) :
    ∀ m c, (stepsTrace ext c m).count (Event.runStep i) =
      if c ≤ i ∧ i < c + m then 1 else 0
  | 0, c => by
    simp only [stepsTrace, List.count_nil]
    split <;> omega
  | m + 1, c => by
    rw [stepsTrace, List.count_append, count_runStep_stepTrace,
      count_runStep_stepsTrace ext i m (c + 1)]
    split_ifs <;> omega

theorem count_runStep_runFinish (ext : RunnerExtension) (numSteps cursor i : Nat) :
    (runFinish ext numSteps cursor).events.count (Event.runStep i) = 0 := by
  unfold runFinish
  split <;> [skip; simp]
  split <;> simp

/-! ### Failure modes of one loop iteration and of a whole `run` call -/

/-- A failing iteration records the failing invocation itself. -/
theorem err_mem_runOneStep (ext : RunnerExtension) (i : Nat) (evs : List Event)
    (err : Event) (h : runOneStep ext i = (evs, some err)) : err ∈ evs := by
  unfold runOneStep invokeOpt invokeReq andThen at h
  cases hb : ext.hasBeforeEachStep <;> cases hbo : ext.beforeEachStepOk i <;>
    cases hr : ext.runStepOk i <;> cases ha : ext.hasAfterEachStep <;>
      cases hao : ext.afterEachStepOk i <;> simp_all <;>
        (obtain ⟨h1, h2⟩ := h; subst h1; subst h2; simp)

/-- The hook `afterEachStep` happens only after `runStep` succeeded: if `runStep` at
`i` would fail, no iteration at `i` ever records `afterEachStep i`. -/
theorem afterEach_not_mem_runOneStep_of_runStep_fails (ext : RunnerExtension)
    (i : Nat) (h : ext.runStepOk i = false) :
    Event.afterEachStep i ∉ (runOneStep ext i).1 := by
  unfold runOneStep invokeOpt invokeReq andThen
  cases hb : ext.hasBeforeEachStep <;> cases hbo : ext.beforeEachStepOk i <;>
    cases ha : ext.hasAfterEachStep <;> cases hao : ext.afterEachStepOk i <;> simp_all

/-- Failure characterization of one `run` call: if every iteration before
index `i` succeeds, the loop reaches `i` (it lies below both bounds), and
the iteration at `i` throws after emitting `evs`, then the call emits
`beforeAllSteps` (when the cursor is `0` and the hook is implemented), the
successful step traces, and `evs`; it leaves the cursor at `i` and
propagates the error, never reaching the completion check. -/
theorem run_fail (ext : RunnerExtension) (flow : UserFlow) (c i : Nat)
    (evs : List Event) (err : Event) (stepIdx? : Option Nat)
    (hba : ext.beforeAllStepsOk = true)
    (hfail : runOneStep ext i = (evs, some err))
    (hok : ∀ j, c ≤ j → j < i → iterOk ext j = true)
    (hci : c ≤ i) (hin : i < flow.steps.length)
    (hs : i < stepIdx?.getD flow.steps.length) :
    Runner.run ext flow c stepIdx? =
      ⟨(if c = 0 ∧ ext.hasBeforeAllSteps = true then [Event.beforeAllSteps] else []) ++
          (stepsTrace ext c (i - c) ++ evs), i, Outcome.error err⟩ := by
  have hloop := runLoop_fail ext flow.steps.length i evs err hfail
    (stepIdx?.getD flow.steps.length - c) c hci hin (by omega) hok
  by_cases hpre : c = 0 ∧ ext.hasBeforeAllSteps = true
  · simp only [Runner.run, if_pos hpre, if_pos hba, hloop, if_pos hpre]
    simp
  · simp only [Runner.run, if_neg hpre, hloop, if_neg hpre]
    simp

theorem afterAll_mem_runFinish (ext : RunnerExtension) (numSteps cursor : Nat) :
    Event.afterAllSteps ∈ (runFinish ext numSteps cursor).events ↔
      numSteps ≤ cursor ∧ ext.hasAfterAllSteps = true := by
  unfold runFinish
  split <;> [skip; simp_all]
  split <;> simp_all

theorem afterAll_not_mem_beforeAllList (P : Prop) [Decidable P] :
    Event.afterAllSteps ∉ (if P then [Event.beforeAllSteps] else []) := by
  split <;> simp

theorem count_runStep_beforeAllList (P : Prop) [Decidable P] (i : Nat) :
    (if P then [Event.beforeAllSteps] else []).count (Event.runStep i) = 0 := by
  split <;> simp [List.count_cons]

/-! ### The claims -/

/-- Claim C1: on a freshly constructed Runner (cursor `0`) whose backend
invocations all succeed, a single `run()` with `upTo` omitted returns
`true`, and its trace is exactly: `beforeAllSteps` (if implemented), then,
for each step index `0, …, N-1` in order, `beforeEachStep` (if
implemented), the mandatory `runStep`, and `afterEachStep` (if
implemented) — each invocation completed before the next begins — then
`afterAllSteps` (if implemented); in particular `runStep` is invoked
exactly once per step, in original step order, and the call ends with the
cursor at `N`. -/
theorem run_full_flow (ext : RunnerExtension) (flow : UserFlow)
    (hba : ext.beforeAllStepsOk = true) (hok : ∀ i, iterOk ext i = true)
    (haa : ext.afterAllStepsOk = true) :
    (Runner.run ext flow 0 none =
      ⟨(if ext.hasBeforeAllSteps then [Event.beforeAllSteps] else []) ++
          (stepsTrace ext 0 flow.steps.length ++
            (if ext.hasAfterAllSteps then [Event.afterAllSteps] else [])),
        flow.steps.length, Outcome.ok true⟩) ∧
    ∀ i, (Runner.run ext flow 0 none).events.count (Event.runStep i) =
      if i < flow.steps.length then 1 else 0 := by
  have h := run_noFail ext flow 0 none (Nat.zero_le _) hba hok
  have htgt : runTarget flow 0 none = flow.steps.length := by
    unfold runTarget; simp
  rw [htgt, runFinish_complete ext _ _ (Nat.le_refl _) haa] at h
  have hmain : Runner.run ext flow 0 none =
      ⟨(if ext.hasBeforeAllSteps then [Event.beforeAllSteps] else []) ++
          (stepsTrace ext 0 flow.steps.length ++
            (if ext.hasAfterAllSteps then [Event.afterAllSteps] else [])),
        flow.steps.length, Outcome.ok true⟩ := by
    rw [h]
    cases hb : ext.hasBeforeAllSteps <;> simp [hb]
  refine ⟨hmain, fun i => ?_⟩
  rw [hmain]
  simp only [List.count_append]
  rw [count_runStep_stepsTrace]
  have h1 : (if ext.hasBeforeAllSteps = true then [Event.beforeAllSteps] else []).count
      (Event.runStep i) = 0 := count_runStep_beforeAllList _ i
  have h2 : (if ext.hasAfterAllSteps = true then [Event.afterAllSteps] else []).count
      (Event.runStep i) = 0 := by split <;> simp [List.count_cons]
  rw [h1, h2]
  split_ifs <;> omega

/-- Claim C1 witness: the two-step flow under the all-hooks backend. -/
theorem run_full_flow_witness :
    Runner.run extAllHooks flowTwo 0 none =
      ⟨[Event.beforeAllSteps, Event.beforeEachStep 0, Event.runStep 0, Event.afterEachStep 0,
          Event.beforeEachStep 1, Event.runStep 1, Event.afterEachStep 1, Event.afterAllSteps],
        2, Outcome.ok true⟩ := by
  rw [(run_full_flow extAllHooks flowTwo rfl (fun i => rfl) rfl).1]
  rfl

/-- Claim C2 counterexample: the hooks are not once-per-Runner.  On a
one-step flow, a first call `run(0)` executes no step and leaves the
cursor at `0`, and the second call invokes `beforeAllSteps` again; dually,
after `run()` completes the flow, a further `run()` invokes
`afterAllSteps` again. -/
theorem once_per_runner_hooks_cex :
    Event.beforeAllSteps ∈ (Runner.run extAllHooks flowOne 0 (some 0)).events ∧
    (Runner.run extAllHooks flowOne 0 (some 0)).nextStep = 0 ∧
    Event.beforeAllSteps ∈
      (Runner.run extAllHooks flowOne
        (Runner.run extAllHooks flowOne 0 (some 0)).nextStep none).events ∧
    Event.afterAllSteps ∈ (Runner.run extAllHooks flowOne 0 none).events ∧
    Event.afterAllSteps ∈
      (Runner.run extAllHooks flowOne
        (Runner.run extAllHooks flowOne 0 none).nextStep none).events := by
  decide

/-- Claim C2 (amended): across any sequence of `run` calls on one Runner
whose backend invocations succeed, `beforeAllSteps` is invoked at exactly
those calls whose entry cursor is `0`, and `afterAllSteps` at exactly
those calls whose end cursor equals the number of steps — not exactly
once each: a call that executes no step from cursor `0` makes the next
call re-invoke `beforeAllSteps`, and every post-completion call
re-invokes `afterAllSteps`. -/
theorem hook_firing_condition (ext : RunnerExtension) (flow : UserFlow)
    (c : Nat) (stepIdx? : Option Nat) (hc : c ≤ flow.steps.length)
    (hba : ext.beforeAllStepsOk = true) (hok : ∀ i, iterOk ext i = true) :
    (Event.beforeAllSteps ∈ (Runner.run ext flow c stepIdx?).events ↔
      c = 0 ∧ ext.hasBeforeAllSteps = true) ∧
    (Event.afterAllSteps ∈ (Runner.run ext flow c stepIdx?).events ↔
      (Runner.run ext flow c stepIdx?).nextStep = flow.steps.length ∧
        ext.hasAfterAllSteps = true) := by
  have h := run_noFail ext flow c stepIdx? hc hba hok
  rw [h]
  dsimp only
  have htle : runTarget flow c stepIdx? ≤ flow.steps.length := by
    unfold runTarget; omega
  constructor
  · constructor
    · intro hmem
      rcases List.mem_append.1 hmem with h1 | h23
      · by_cases hp : c = 0 ∧ ext.hasBeforeAllSteps = true
        · exact hp
        · rw [if_neg hp] at h1
          simp at h1
      · rcases List.mem_append.1 h23 with h2 | h3
        · exact absurd h2 (beforeAll_not_mem_stepsTrace ext _ _)
        · exact absurd h3 (beforeAll_not_mem_runFinish ext _ _)
    · intro hp
      rw [if_pos hp]
      simp
  · constructor
    · intro hmem
      rcases List.mem_append.1 hmem with h1 | h23
      · exact absurd h1 (afterAll_not_mem_beforeAllList _)
      · rcases List.mem_append.1 h23 with h2 | h3
        · exact absurd h2 (afterAll_not_mem_stepsTrace ext _ _)
        · have := (afterAll_mem_runFinish ext _ _).1 h3
          exact ⟨by omega, this.2⟩
    · rintro ⟨h1, h2⟩
      refine List.mem_append.2 (Or.inr (List.mem_append.2 (Or.inr ?_)))
      exact (afterAll_mem_runFinish ext _ _).2 ⟨by omega, h2⟩

/-- Claim C2 (amended) witness: a mid-flow call (cursor `1` of a two-step
flow) invokes neither `beforeAllSteps` nor, since it stops at `upTo = 1`
short of completion, `afterAllSteps`. -/
theorem hook_firing_condition_witness :
    (Event.beforeAllSteps ∈ (Runner.run extAllHooks flowTwo 1 (some 1)).events ↔
      (1 : Nat) = 0 ∧ extAllHooks.hasBeforeAllSteps = true) ∧
    (Event.afterAllSteps ∈ (Runner.run extAllHooks flowTwo 1 (some 1)).events ↔
      (Runner.run extAllHooks flowTwo 1 (some 1)).nextStep = flowTwo.steps.length ∧
        extAllHooks.hasAfterAllSteps = true) :=
  hook_firing_condition extAllHooks flowTwo 1 (some 1) (by decide) rfl (fun i => rfl)

/-- Claim C4 counterexample: after a one-step flow has completed (first
`run()` returned `true`), a second `run()` does return `true` but does not
leave the backend uncalled: it invokes `afterAllSteps` again. -/
theorem post_completion_invokes_hook_cex :
    (Runner.run extAllHooks flowOne 0 none).outcome = Outcome.ok true ∧
    (Runner.run extAllHooks flowOne
      (Runner.run extAllHooks flowOne 0 none).nextStep none).outcome = Outcome.ok true ∧
    (Runner.run extAllHooks flowOne
      (Runner.run extAllHooks flowOne 0 none).nextStep none).events =
        [Event.afterAllSteps] := by
  decide

/-- Claim C4 (amended): every call to `run` after a nonempty flow has
completed returns `true`, executes no step, invokes no per-step hook and
no `beforeAllSteps`, and leaves the cursor unchanged — but it re-invokes
`afterAllSteps` (when the backend implements it) on every such call. -/
theorem run_post_completion (ext : RunnerExtension) (flow : UserFlow)
    (stepIdx? : Option Nat) (hn : 0 < flow.steps.length)
    (haa : ext.afterAllStepsOk = true) :
    Runner.run ext flow flow.steps.length stepIdx? =
      ⟨if ext.hasAfterAllSteps then [Event.afterAllSteps] else [],
        flow.steps.length, Outcome.ok true⟩ := by
  simp only [Runner.run]
  rw [if_neg (by rintro ⟨h1, -⟩; omega),
    runLoop_at_end ext _ _ _ (Nat.le_refl _),
    runFinish_complete ext _ _ (Nat.le_refl _) haa]

/-- Claim C4 (amended) witness: the completed one-step flow. -/
theorem run_post_completion_witness :
    Runner.run extAllHooks flowOne 1 none =
      ⟨[Event.afterAllSteps], 1, Outcome.ok true⟩ :=
  run_post_completion extAllHooks flowOne none (by decide) rfl

/-- Claim C9 counterexample: on a fresh Runner over a one-step flow (not
complete, cursor `0`), `run(0)` with `upTo = 0 ≤ cursor` does leave the
cursor unchanged and return `false`, but it is not free of backend
invocations: it invokes `beforeAllSteps`. -/
theorem upTo_le_cursor_invokes_hook_cex :
    (Runner.run extAllHooks flowOne 0 (some 0)).outcome = Outcome.ok false ∧
    (Runner.run extAllHooks flowOne 0 (some 0)).nextStep = 0 ∧
    (Runner.run extAllHooks flowOne 0 (some 0)).events = [Event.beforeAllSteps] := by
  decide

/-- Claim C9 (amended): a `run(upTo)` call with `upTo ≤ cursor` executes no
step and leaves the cursor unchanged; it returns `false` when the Runner
is not complete and `true` when it is.  It is free of backend invocations
except that `beforeAllSteps` fires when the cursor is `0` and
`afterAllSteps` fires when the Runner is already complete (each when
implemented). -/
theorem run_upTo_le_cursor (ext : RunnerExtension) (flow : UserFlow) (c u : Nat)
    (hc : c ≤ flow.steps.length) (hu : u ≤ c)
    (hba : ext.beforeAllStepsOk = true) (haa : ext.afterAllStepsOk = true) :
    Runner.run ext flow c (some u) =
      if c < flow.steps.length then
        ⟨if c = 0 ∧ ext.hasBeforeAllSteps = true then [Event.beforeAllSteps] else [],
          c, Outcome.ok false⟩
      else
        ⟨(if c = 0 ∧ ext.hasBeforeAllSteps = true then [Event.beforeAllSteps] else []) ++
            (if ext.hasAfterAllSteps then [Event.afterAllSteps] else []),
          c, Outcome.ok true⟩ := by
  have hfin : runLoop ext flow.steps.length (u - c) c = runFinish ext flow.steps.length c := by
    rw [show u - c = 0 from by omega]
    rfl
  by_cases hp : c = 0 ∧ ext.hasBeforeAllSteps = true
  · simp only [Runner.run, Option.getD_some, if_pos hp, if_pos hba, hfin]
    by_cases hlt : c < flow.steps.length
    · rw [if_pos hlt, runFinish_incomplete ext _ _ hlt]
    · rw [if_neg hlt, runFinish_complete ext _ _ (by omega) haa]
      rfl
  · simp only [Runner.run, Option.getD_some, if_neg hp, hfin]
    by_cases hlt : c < flow.steps.length
    · rw [if_pos hlt, runFinish_incomplete ext _ _ hlt]
    · rw [if_neg hlt, runFinish_complete ext _ _ (by omega) haa]
      rfl

/-- Claim C9 (amended) witness: a mid-flow Runner (cursor `1` of two steps)
given `upTo = 1` does nothing and returns `false`; a complete Runner
(cursor `1` of one step) given `upTo = 0` returns `true`, re-invoking only
`afterAllSteps`. -/
theorem run_upTo_le_cursor_witness :
    Runner.run extAllHooks flowTwo 1 (some 1) = ⟨[], 1, Outcome.ok false⟩ ∧
    Runner.run extAllHooks flowOne 1 (some 0) =
      ⟨[Event.afterAllSteps], 1, Outcome.ok true⟩ := by
  constructor
  · have h := run_upTo_le_cursor extAllHooks flowTwo 1 1 (by decide) (Nat.le_refl _) rfl rfl
    simpa using h
  · have h := run_upTo_le_cursor extAllHooks flowOne 1 0 (by decide) (by decide) rfl rfl
    simpa using h

/-- Claim C10: the trigger for `beforeAllSteps` is the cursor being `0` at
entry to `run`, not the call being the Runner's first: with the hook
implemented, every call entered at cursor `0` — whatever already happened
on the Runner, and whether or not later invocations fail — invokes
`beforeAllSteps` before anything else, and no call entered at a nonzero
cursor ever invokes it. -/
theorem beforeAll_trigger (ext : RunnerExtension) (flow : UserFlow)
    (c : Nat) (stepIdx? : Option Nat) (hhas : ext.hasBeforeAllSteps = true) :
    (c = 0 → (Runner.run ext flow c stepIdx?).events.head? = some Event.beforeAllSteps) ∧
    (Event.beforeAllSteps ∈ (Runner.run ext flow c stepIdx?).events ↔ c = 0) := by
  constructor
  · intro hc
    subst hc
    cases hbo : ext.beforeAllStepsOk <;> simp [Runner.run, hhas, hbo]
  · constructor
    · intro hmem
      by_contra hc
      rw [Runner.run, if_neg (by rintro ⟨h1, -⟩; exact hc h1)] at hmem
      exact beforeAll_not_mem_runLoop ext _ _ _ hmem
    · intro hc
      subst hc
      cases hbo : ext.beforeAllStepsOk <;> simp [Runner.run, hhas, hbo]

/-- Claim C10 witness: at cursor `0` of the one-step flow the trace starts
with `beforeAllSteps`; at cursor `1` the hook is not invoked at all. -/
theorem beforeAll_trigger_witness :
    (Runner.run extAllHooks flowOne 0 none).events.head? = some Event.beforeAllSteps ∧
    (Event.beforeAllSteps ∈ (Runner.run extAllHooks flowOne 1 none).events ↔ (1 : Nat) = 0) :=
  ⟨(beforeAll_trigger extAllHooks flowOne 0 none rfl).1 rfl,
    (beforeAll_trigger extAllHooks flowOne 1 none rfl).2⟩

theorem afterAll_not_mem_runOneStep (ext : RunnerExtension) (i : Nat) :
    Event.afterAllSteps ∉ (runOneStep ext i).1 := by
  unfold runOneStep invokeOpt invokeReq andThen
  cases ext.hasBeforeEachStep <;> cases ext.beforeEachStepOk i <;>
    cases ext.runStepOk i <;> cases ext.hasAfterEachStep <;>
      cases ext.afterEachStepOk i <;> simp

/-- Claim C5: if an invocation of a per-step hook or of `runStep` for the
step at cursor index `i` fails (every earlier iteration succeeding), the
error propagates out of `run`, the cursor remains at `i` — not incremented
past the failing step — `afterEachStep` for step `i` is not invoked when
`runStep` failed, `afterAllSteps` is not invoked, and a subsequent
`run()` re-attempts step `i`: it re-issues the very same invocations for
step `i` (and fails the same way, the backend unchanged). -/
theorem run_failure_semantics (ext : RunnerExtension) (flow : UserFlow)
    (i : Nat) (evs : List Event) (err : Event)
    (hba : ext.beforeAllStepsOk = true)
    (hok : ∀ j, j < i → iterOk ext j = true)
    (hin : i < flow.steps.length)
    (hfail : runOneStep ext i = (evs, some err)) :
    (Runner.run ext flow 0 none).outcome = Outcome.error err ∧
    (Runner.run ext flow 0 none).nextStep = i ∧
    Event.afterAllSteps ∉ (Runner.run ext flow 0 none).events ∧
    (ext.runStepOk i = false →
      Event.afterEachStep i ∉ (Runner.run ext flow 0 none).events) ∧
    Runner.run ext flow (Runner.run ext flow 0 none).nextStep none =
      ⟨(if i = 0 ∧ ext.hasBeforeAllSteps = true then [Event.beforeAllSteps] else []) ++ evs,
        i, Outcome.error err⟩ ∧
    err ∈ (Runner.run ext flow (Runner.run ext flow 0 none).nextStep none).events := by
  have h1 := run_fail ext flow 0 i evs err none hba hfail (fun j _ hj => hok j hj)
    (Nat.zero_le _) hin (by simpa using hin)
  have h2 := run_fail ext flow i i evs err none hba hfail (fun j hj1 hj2 => by omega)
    (Nat.le_refl _) hin (by simpa using hin)
  rw [show stepsTrace ext i (i - i) = [] from by rw [Nat.sub_self]; rfl,
    List.nil_append] at h2
  rw [h1]
  dsimp only
  rw [h2]
  dsimp only
  refine ⟨rfl, rfl, ?_, ?_, rfl, ?_⟩
  · intro hmem
    rcases List.mem_append.1 hmem with hpre | h23
    · exact afterAll_not_mem_beforeAllList _ hpre
    · rcases List.mem_append.1 h23 with hst | hevs
      · exact afterAll_not_mem_stepsTrace ext _ _ hst
      · have := afterAll_not_mem_runOneStep ext i
        rw [hfail] at this
        exact this hevs
  · intro hrs hmem
    rcases List.mem_append.1 hmem with hpre | h23
    · revert hpre
      split <;> simp
    · rcases List.mem_append.1 h23 with hst | hevs
      · obtain ⟨j, hj1, hj2, hj3⟩ := mem_stepsTrace ext _ _ _ hst
        rcases hj3 with h | h | h <;> simp_all
      · have := afterEach_not_mem_runOneStep_of_runStep_fails ext i hrs
        rw [hfail] at this
        exact this hevs
  · exact List.mem_append.2 (Or.inr (err_mem_runOneStep ext i evs err hfail))

/-- Claim C5 witness: a backend whose `runStep` fails at index `1` of the
two-step flow. -/
theorem run_failure_semantics_witness :
    (Runner.run extFailRun1 flowTwo 0 none).outcome = Outcome.error (Event.runStep 1) ∧
    (Runner.run extFailRun1 flowTwo 0 none).nextStep = 1 ∧
    Event.afterEachStep 1 ∉ (Runner.run extFailRun1 flowTwo 0 none).events := by
  have h := run_failure_semantics extFailRun1 flowTwo 1
    [Event.beforeEachStep 1, Event.runStep 1] (Event.runStep 1) rfl
    (fun j hj => by simp [iterOk, extFailRun1]; omega) (by decide) rfl
  exact ⟨h.1, h.2.1, h.2.2.2.1 rfl⟩

/-- Claim C6: with a succeeding backend, calling `run(k)` on a fresh Runner
and then `run()` executes each step with index in `[k, N)` exactly once
across the two calls, executes no step with index in `[0, k)` during the
second call, and never moves the cursor backwards. -/
theorem run_resume_no_duplicates (ext : RunnerExtension) (flow : UserFlow) (k : Nat)
    (hba : ext.beforeAllStepsOk = true) (hok : ∀ i, iterOk ext i = true) :
    (∀ i, k ≤ i → i < flow.steps.length →
      ((Runner.run ext flow 0 (some k)).events ++
        (Runner.run ext flow (Runner.run ext flow 0 (some k)).nextStep none).events).count
          (Event.runStep i) = 1) ∧
    (∀ i, i < k →
      (Runner.run ext flow (Runner.run ext flow 0 (some k)).nextStep none).events.count
        (Event.runStep i) = 0) ∧
    (Runner.run ext flow 0 (some k)).nextStep ≤
      (Runner.run ext flow (Runner.run ext flow 0 (some k)).nextStep none).nextStep := by
  have ht1 : runTarget flow 0 (some k) = min k flow.steps.length := by
    simp only [runTarget, Option.getD_some]
    omega
  have ht2 : runTarget flow (min k flow.steps.length) none = flow.steps.length := by
    simp only [runTarget, Option.getD_none]
    omega
  have h1 := run_noFail ext flow 0 (some k) (Nat.zero_le _) hba hok
  rw [ht1] at h1
  have h2 := run_noFail ext flow (min k flow.steps.length) none (by omega) hba hok
  rw [ht2] at h2
  rw [h1]
  dsimp only
  rw [h2]
  dsimp only
  refine ⟨fun i hki hin => ?_, fun i hik => ?_, by omega⟩
  · simp only [List.count_append, count_runStep_stepsTrace, count_runStep_runFinish,
      count_runStep_beforeAllList]
    split_ifs <;> omega
  · simp only [List.count_append, count_runStep_stepsTrace, count_runStep_runFinish,
      count_runStep_beforeAllList]
    split_ifs <;> omega

/-- Claim C6 witness: `run(1)` then `run()` on the two-step flow: step `1`
runs exactly once across the two calls and step `0` does not run during
the second call. -/
theorem run_resume_no_duplicates_witness :
    ((Runner.run extAllHooks flowTwo 0 (some 1)).events ++
      (Runner.run extAllHooks flowTwo
        (Runner.run extAllHooks flowTwo 0 (some 1)).nextStep none).events).count
          (Event.runStep 1) = 1 ∧
    (Runner.run extAllHooks flowTwo
      (Runner.run extAllHooks flowTwo 0 (some 1)).nextStep none).events.count
        (Event.runStep 0) = 0 := by
  have h := run_resume_no_duplicates extAllHooks flowTwo 1 rfl (fun i => rfl)
  exact ⟨h.1 1 (Nat.le_refl _) (by decide), h.2.1 0 (by decide)⟩

/-! ### Import resolution -/

/-- Claim C3 counterexample: resolution is single-pass, so an import marker
inside an imported file's `steps` array is spliced into the output as-is —
the resolved flow still contains an import-marker element. -/
theorem import_marker_survives_cex :
    importSteps fsNested flowNested =
      Except.ok ⟨"outer", [Step.importStep Source.url "nested"]⟩ ∧
    stepIsImport (Step.importStep Source.url "nested") = true := by
  exact ⟨rfl, rfl⟩

theorem importStepsAux_no_marker (fs : String → FileContent)
    (hfs : ∀ t l, fs t = FileContent.jsonSteps l → l.any stepIsImport = false) :
    ∀ steps out, importStepsAux fs steps = Except.ok out →
      out.any stepIsImport = false := by
  intro steps
  induction steps with
  | nil =>
    intro out h
    simp only [importStepsAux, Except.ok.injEq] at h
    subst h
    rfl
  | cons s rest ih =>
    intro out h
    cases s with
    | ordinary tag =>
      rcases haux : importStepsAux fs rest with e | tail
      · simp [importStepsAux, haux] at h
      · simp only [importStepsAux, haux, Except.ok.injEq] at h
        subst h
        simp [stepIsImport, ih tail haux]
    | importStep src target =>
      cases src with
      | url => simp [importStepsAux] at h
      | file =>
        rcases hfsv : fs target with _ | _ | _ | s
        · simp [importStepsAux, hfsv] at h
        · simp [importStepsAux, hfsv] at h
        · simp [importStepsAux, hfsv] at h
        · rcases haux : importStepsAux fs rest with e | tail
          · simp [importStepsAux, hfsv, haux] at h
          · simp only [importStepsAux, hfsv, haux, Except.ok.injEq] at h
            subst h
            simp [List.any_append, ih tail haux, hfs target s hfsv]

/-- Claim C3 (amended): every import marker in the input flow's own `steps`
array is expanded — none survives at its own position — and, provided the
imported files' `steps` arrays themselves contain no import markers, the
resolved flow contains no import marker at all.  (Without that proviso
the claim fails: resolution is single-pass and non-recursive, so spliced-in
elements are not re-scanned; see the counterexample.) -/
theorem importSteps_no_marker (fs : String → FileContent) (flow resolved : UserFlow)
    (hfs : ∀ t l, fs t = FileContent.jsonSteps l → l.any stepIsImport = false)
    (h : importSteps fs flow = Except.ok resolved) :
    resolved.steps.any stepIsImport = false := by
  rcases haux : importStepsAux fs flow.steps with e | steps
  · simp [importSteps, haux] at h
  · simp only [importSteps, haux, Except.ok.injEq] at h
    subst h
    exact importStepsAux_no_marker fs hfs flow.steps steps haux

/-- Claim C3 (amended) witness: resolving the flat import produces a flow
with no import markers. -/
theorem importSteps_no_marker_witness :
    (UserFlow.mk "main" [Step.ordinary "a", Step.ordinary "x", Step.ordinary "y",
      Step.ordinary "b"]).steps.any stepIsImport = false := by
  refine importSteps_no_marker fsFlat flowWithImport _ (fun t l hl => ?_) rfl
  unfold fsFlat at hl
  split at hl
  · cases hl
    rfl
  · cases hl

/-- Claim C7: a file-sourced marker is replaced in place, preserving order:
for steps `[A, import(file=f), B]` with `f` parsing to steps `[X, Y]`,
resolution yields `[A, X, Y, B]` under the original title. -/
theorem importSteps_splice (fs : String → FileContent) (title a b f : String)
    (x y : Step) (hf : fs f = FileContent.jsonSteps [x, y]) :
    importSteps fs
        ⟨title, [Step.ordinary a, Step.importStep Source.file f, Step.ordinary b]⟩ =
      Except.ok ⟨title, [Step.ordinary a, x, y, Step.ordinary b]⟩ := by
  simp [importSteps, importStepsAux, hf]

/-- Claim C7 witness: the `lib.json` fixture. -/
theorem importSteps_splice_witness :
    importSteps fsFlat flowWithImport =
      Except.ok ⟨"main", [Step.ordinary "a", Step.ordinary "x", Step.ordinary "y",
        Step.ordinary "b"]⟩ :=
  importSteps_splice fsFlat "main" "a" "b" "lib.json"
    (Step.ordinary "x") (Step.ordinary "y") rfl

theorem importStepsAux_error_cons_ordinary (fs : String → FileContent) (tag : String)
    (l : List Step) (e : FlowError) (h : importStepsAux fs l = Except.error e) :
    importStepsAux fs (Step.ordinary tag :: l) = Except.error e := by
  simp [importStepsAux, h]

theorem importStepsAux_error_append (fs : String → FileContent) :
    ∀ pre, (∀ s ∈ pre, stepIsImport s = false) →
      ∀ l e, importStepsAux fs l = Except.error e →
        importStepsAux fs (pre ++ l) = Except.error e := by
  intro pre
  induction pre with
  | nil =>
    intro _ l e h
    simpa using h
  | cons s pre ih =>
    intro hpre l e h
    cases s with
    | ordinary tag =>
      rw [List.cons_append]
      exact importStepsAux_error_cons_ordinary fs tag _ e
        (ih (fun s hs => hpre s (List.mem_cons_of_mem _ hs)) l e h)
    | importStep src target =>
      exact absurd (hpre _ (List.mem_cons_self _ _)) (by simp [stepIsImport])

/-- Claim C8: reaching a file-sourced marker whose target cannot be read,
cannot be parsed as JSON, or parses without a `steps` field makes
resolution fail with an `ImportError` naming the target and wrapping the
cause; reaching a marker whose source kind is not `file` (e.g. `url`)
makes it fail with an `UnsupportedSourceError` — the marker is never
silently skipped. -/
theorem importSteps_error_cases (fs : String → FileContent) (flow : UserFlow)
    (pre rest : List Step) (t : String)
    (hpre : ∀ s ∈ pre, stepIsImport s = false) :
    (flow.steps = pre ++ Step.importStep Source.file t :: rest →
      (fs t = FileContent.unreadable →
        importSteps fs flow =
          Except.error (FlowError.importError t ImportCause.readFailed)) ∧
      (fs t = FileContent.unparsable →
        importSteps fs flow =
          Except.error (FlowError.importError t ImportCause.parseFailed)) ∧
      (fs t = FileContent.jsonWithoutSteps →
        importSteps fs flow =
          Except.error (FlowError.importError t ImportCause.noStepsFound))) ∧
    (flow.steps = pre ++ Step.importStep Source.url t :: rest →
      importSteps fs flow = Except.error (FlowError.unsupportedSource Source.url)) := by
  have key : ∀ e, importStepsAux fs flow.steps = Except.error e →
      importSteps fs flow = Except.error e := by
    intro e he
    simp [importSteps, he]
  constructor
  · intro hsteps
    refine ⟨fun hfs => key _ ?_, fun hfs => key _ ?_, fun hfs => key _ ?_⟩ <;>
      (rw [hsteps]
       exact importStepsAux_error_append fs pre hpre _ _ (by simp [importStepsAux, hfs]))
  · intro hsteps
    refine key _ ?_
    rw [hsteps]
    exact importStepsAux_error_append fs pre hpre _ _ (by simp [importStepsAux])

/-- Claim C8 witness: an unreadable target behind one ordinary step, and a
url-sourced marker. -/
theorem importSteps_error_cases_witness :
    importSteps fsErr
        ⟨"m", [Step.ordinary "a", Step.importStep Source.file "gone.json"]⟩ =
      Except.error (FlowError.importError "gone.json" ImportCause.readFailed) ∧
    importSteps fsErr ⟨"m", [Step.importStep Source.url "http"]⟩ =
      Except.error (FlowError.unsupportedSource Source.url) := by
  constructor
  · exact ((importSteps_error_cases fsErr _ [Step.ordinary "a"] [] "gone.json"
      (by simp [stepIsImport])).1 rfl).1 rfl
  · exact (importSteps_error_cases fsErr _ [] [] "http" (by simp)).2 rfl

end Replay
